import Mathlib

/-!
Verification development for a small Python utility layer (`utils.py`) that
reads a CSV file into a keyword list (`CsvToList`), writes and lists objects
in an S3 bucket (`WriteToS3`, `ReadFromS3`), and sends, receives and deletes
messages on an SQS queue (`ReadWriteToSQS`).  The external collaborators
(filesystem, S3 service, SQS service, `json` library) are modelled by their
documented semantics; the control flow of each function is translated from
the source.
-/

deriving instance DecidableEq for Except

/-- A log line emitted through `logging`: `isError` distinguishes
`logging.error` from `logging.info`. -/
structure LogEntry where
  isError : Bool
  msg : String
deriving DecidableEq, Repr

/-- Faults of the Python runtime that are not caught by the function under
scrutiny and therefore propagate to the caller. -/
inductive PyFault where
  | indexError
  | keyError
  | attributeError
deriving DecidableEq, Repr

/-! ## CsvToList

`csv_to_list` opens `settings.FILE_PATH.format(file_name)`, builds a
`csv.DictReader`, reads `fieldnames` (the first row of the file, `None` for an
empty file), and for every subsequent non-blank row evaluates
`row[fields_names[0]].lower()` and appends it to the output list.  Only
`FileNotFoundError` is caught (logged, function then returns `None`).

A parsed CSV file is modelled as the list of rows produced by `csv.reader`:
each row is a list of field strings, and a blank line is the empty row. -/

abbrev CsvRow := List String
abbrev CsvFile := List CsvRow

/-- Model of `csv.DictReader.fieldnames`: the first row of the file, if any. -/
def fieldnames (f : CsvFile) : Option (List String) := f.head?

/-- The rows iterated by `csv.DictReader`: everything after the header row,
with blank rows skipped (the reader refuses to yield empty rows). -/
def dataRows (f : CsvFile) : List CsvRow := (f.drop 1).filter (fun r => !r.isEmpty)

/-- The last index `i` of `fields` with `fields[i] = key`; `dict(zip(fields, row))`
binds a duplicated key to its last occurrence. -/
def lastIdxOf (fields : List String) (key : String) : Option Nat :=
  ((List.range fields.length).filter (fun i => fields[i]? == some key)).getLast?

/-- Lookup of `key` in `dict(zip(fields, row))` as built by `csv.DictReader`,
with `restval = None` padding for short rows: `none` is a `KeyError`
(key absent), `some none` means the key is bound to Python `None`, and
`some (some v)` means it is bound to the field string `v`. -/
def dictZipGet (fields row : List String) (key : String) : Option (Option String) :=
  match lastIdxOf fields key with
  | none => none
  | some i => some (row[i]?)

/-- Python `str.lower`, modelled characterwise (the keyword data of interest
is ASCII, where `Char.toLower` agrees with Python's case folding). -/
def pyLower (s : String) : String := String.mk (s.data.map Char.toLower)

/-- One loop iteration of `csv_to_list`:
`item = keyword_location_pair[fields_names[0]].lower()`.
An empty header row makes `fields_names[0]` an `IndexError`; a key bound to
`None` makes `.lower()` an `AttributeError`. -/
def processRow (fields : List String) (row : CsvRow) : Except PyFault String :=
  match fields[0]? with
  | none => .error .indexError
  | some k =>
    match dictZipGet fields row k with
    | none => .error .keyError
    | some none => .error .attributeError
    | some (some v) => .ok (pyLower v)

/-- The loop of `csv_to_list` over the data rows, in file order; the first
fault aborts the call. -/
def processRows (fields : List String) : List CsvRow → Except PyFault (List String)
  | [] => .ok []
  | r :: rs => do
    let v ← processRow fields r
    let vs ← processRows fields rs
    pure (v :: vs)

/-- What `csv_to_list` hands back to its caller: the returned value (`none`
models Python's implicit `None` on the `FileNotFoundError` path) and the log
lines emitted. -/
structure CsvOutcome where
  ret : Option (List String)
  logs : List LogEntry
deriving DecidableEq, Repr

/-- Model of `CsvToList.csv_to_list`.  Here `resolve` models `settings.FILE_PATH.format`,
`fs` models the filesystem (mapping a path to the parsed CSV file stored
there, `none` when no file exists at that path). -/
def csv_to_list (resolve : String → String) (fs : String → Option CsvFile)
    (file_name : String) : Except PyFault CsvOutcome :=
  match fs (resolve file_name) with
  | none => .ok ⟨none, [⟨true, "csv file not found"⟩]⟩
  | some f =>
    match fieldnames f with
    | none => .ok ⟨some [], []⟩
    | some fields =>
      match processRows fields (dataRows f) with
      | .error e => .error e
      | .ok ks => .ok ⟨some ks, []⟩

/-! ## WriteToS3

`write_file_to_s3` first defaults `self.object_name` to `self.file_name` when
it is `None`, then performs `s3.Object(bucket_name, s3_path).put(Body=file_name)`
inside a `try` that catches `ClientError` and logs.  Note that the put key is
`s3_path` and the body is the `file_name` string itself; the defaulted
`object_name` is never read again. -/

/-- One `put` issued against the object store. -/
structure S3PutCall where
  bucket : String
  key : String
  body : String
deriving DecidableEq, Repr

/-- What a call to `write_file_to_s3` leaves behind: the value of
`self.object_name` after the defaulting step, the puts issued against S3, and
the log lines. -/
structure WriteOutcome where
  objectNameEff : String
  puts : List S3PutCall
  logs : List LogEntry
deriving DecidableEq, Repr

/-- Model of `WriteToS3.write_file_to_s3`; the flag `clientFail` injects a `ClientError` raised
by the underlying put. -/
def write_file_to_s3 (file_name bucket_name s3_path : String)
    (object_name : Option String) (clientFail : Bool) : WriteOutcome :=
  let objName := match object_name with
    | none => file_name
    | some x => x
  if clientFail then ⟨objName, [], [⟨true, "file upload failed"⟩]⟩
  else ⟨objName, [⟨bucket_name, s3_path, file_name⟩],
        [⟨false, "File uploaded successfully"⟩]⟩

/-! ## ReadFromS3

`list_all_path_in_s3_folder` calls `list_objects_v2(Bucket, Prefix, MaxKeys=100)`
and returns `response.get("Contents")`.  Per the S3 API, the listing is
truncated at `MaxKeys`, and the `Contents` key is omitted from the response
when no object matches, so `.get` yields `None` then. -/

/-- Whether the character list `l` begins with `p`. -/
def listStartsWith : List Char → List Char → Bool
  | _, [] => true
  | [], _ :: _ => false
  | c :: cs, p :: ps => c = p && listStartsWith cs ps

/-- Whether the string `s` begins with `p` (S3 key-prefix matching). -/
def strStartsWith (s p : String) : Bool := listStartsWith s.data p.data

/-- The `Contents` entry of a `list_objects_v2` response: the keys of the
bucket matching the given key prefix, truncated at `maxKeys`; `none` when
nothing matches (the key is absent from the response). -/
def list_objects_v2_contents (objs : List String) (pfx : String)
    (maxKeys : Nat) : Option (List String) :=
  let page := (objs.filter (fun k => strStartsWith k pfx)).take maxKeys
  if page.isEmpty then none else some page

/-- What `list_all_path_in_s3_folder` hands back: the returned value (`none`
both on `ClientError` and when no `Contents` key is present) and the logs. -/
structure ListOutcome where
  ret : Option (List String)
  logs : List LogEntry
deriving DecidableEq, Repr

/-- Model of `ReadFromS3.list_all_path_in_s3_folder`; the map `buckets` models the object
store (bucket name to listed keys), `clientFail` injects a `ClientError`. -/
def list_all_path_in_s3_folder (buckets : String → List String)
    (bucket_name s3_path : String) (clientFail : Bool) : ListOutcome :=
  if clientFail then ⟨none, [⟨true, "Failed to read file from s3"⟩]⟩
  else ⟨list_objects_v2_contents (buckets bucket_name) s3_path 100,
        [⟨false, "successfully read from s3"⟩]⟩

/-! ## JSON

`send_sqs_message` submits `json.dumps(param)` as the message body, so the
queue model needs the `json` library.  Payloads are modelled by the canonical
JSON value type below; `json_dumps` follows `json.dumps` with its default
options (separators `", "` and `": "`, `ensure_ascii=True` so every character
outside printable ASCII becomes a `\uXXXX` escape, astral characters becoming
surrogate pairs), and `json_loads` is a parser for the serialized form, as
`json.loads` evaluates it. -/

/-- The left curly bracket character. -/
def lbrace : Char := Char.ofNat 123

/-- The right curly bracket character. -/
def rbrace : Char := Char.ofNat 125

/-- Lower-case hexadecimal digit for `d < 16`, as printed by `"%04x"`. -/
def hexDigitChar (d : Nat) : Char :=
  if d < 10 then Char.ofNat (48 + d) else Char.ofNat (87 + d)

/-- The four hex digits of `n % 65536`, most significant first. -/
def hex4 (n : Nat) : List Char :=
  [hexDigitChar (n / 4096 % 16), hexDigitChar (n / 256 % 16),
   hexDigitChar (n / 16 % 16), hexDigitChar (n % 16)]

/-- Value of one hexadecimal digit character (either case), if it is one. -/
def hexVal (c : Char) : Option Nat :=
  if 48 ≤ c.toNat ∧ c.toNat ≤ 57 then some (c.toNat - 48)
  else if 97 ≤ c.toNat ∧ c.toNat ≤ 102 then some (c.toNat - 87)
  else if 65 ≤ c.toNat ∧ c.toNat ≤ 70 then some (c.toNat - 55)
  else none

/-- Value of a four-digit hexadecimal escape. -/
def hex4Val (a b c d : Char) : Option Nat :=
  match hexVal a, hexVal b, hexVal c, hexVal d with
  | some x, some y, some z, some w => some (x * 4096 + y * 256 + z * 16 + w)
  | _, _, _, _ => none

/-- How `json.dumps` (with `ensure_ascii=True`) renders one character inside
a string literal: `"` and `\` get a backslash, printable ASCII is kept,
the shorthand escapes cover `\n \t \r \b \f`, every other character becomes
`\uXXXX`, with a surrogate pair for code points above `0xFFFF`. -/
def escapeChar (c : Char) : List Char :=
  if c = '"' then ['\\', '"']
  else if c = '\\' then ['\\', '\\']
  else if 32 ≤ c.toNat ∧ c.toNat ≤ 126 then [c]
  else if c = '\n' then ['\\', 'n']
  else if c = '\t' then ['\\', 't']
  else if c = '\r' then ['\\', 'r']
  else if c.toNat = 8 then ['\\', 'b']
  else if c.toNat = 12 then ['\\', 'f']
  else if c.toNat < 65536 then '\\' :: 'u' :: hex4 c.toNat
  else
    ('\\' :: 'u' :: hex4 (55296 + (c.toNat - 65536) / 1024)) ++
    ('\\' :: 'u' :: hex4 (56320 + (c.toNat - 65536) % 1024))

/-- The map `escapeChar` applied across a string's characters. -/
def escapeList : List Char → List Char
  | [] => []
  | c :: cs => escapeChar c ++ escapeList cs

/-- Decimal digit character for `d < 10`. -/
def digitChar (d : Nat) : Char := Char.ofNat (48 + d)

/-- The decimal digits of `n`, most significant first, computed with explicit
fuel (any fuel of at least `n` is enough). -/
def bigDigits : Nat → Nat → List Nat
  | 0, _ => []
  | fuel + 1, n => if n = 0 then [] else bigDigits fuel (n / 10) ++ [n % 10]

/-- Decimal rendering of a natural number, as `str` prints it. -/
def natChars (n : Nat) : List Char :=
  if n = 0 then ['0'] else (bigDigits n n).map digitChar

/-- Decimal rendering of an integer, as `str` prints it. -/
def intChars : Int → List Char
  | .ofNat m => natChars m
  | .negSucc m => '-' :: natChars (m + 1)

/-- The characters of a literal keyword. -/
def litChars (s : String) : List Char := s.data

/-- Canonical JSON values: the payloads `json.dumps` serializes and
`json.loads` reconstructs. -/
inductive Json where
  | null : Json
  | bool (b : Bool) : Json
  | num (n : Int) : Json
  | str (s : String) : Json
  | arr (elems : List Json) : Json
  | obj (members : List (String × Json)) : Json
deriving Repr

mutual

/-- Model of `json.dumps` with its default options, as a character list.
The three keyword literals are rendered verbatim. -/
def dumpsV : Json → List Char
  | .null => litChars ("null")
  | .bool true => litChars ("true")
  | .bool false => litChars ("false")
  | .num n => intChars n
  | .str s => '"' :: escapeList s.data ++ ['"']
  | .arr xs => '[' :: dumpsArr xs ++ [']']
  | .obj kvs => lbrace :: dumpsObj kvs ++ [rbrace]

/-- Array elements, separated by the default item separator. -/
def dumpsArr : List Json → List Char
  | [] => []
  | [x] => dumpsV x
  | x :: y :: xs => dumpsV x ++ ',' :: ' ' :: dumpsArr (y :: xs)

/-- Object members, key rendered as a string literal, separated by the
default key and item separators. -/
def dumpsObj : List (String × Json) → List Char
  | [] => []
  | [kv] => '"' :: escapeList kv.1.data ++ '"' :: ':' :: ' ' :: dumpsV kv.2
  | kv :: m :: kvs =>
    ('"' :: escapeList kv.1.data ++ '"' :: ':' :: ' ' :: dumpsV kv.2) ++
    ',' :: ' ' :: dumpsObj (m :: kvs)

end

/-- Expect the literal `lit` at the front of the input and drop it. -/
def dropLit : List Char → List Char → Option (List Char)
  | [], l => some l
  | c :: cs, d :: l => if c = d then dropLit cs l else none
  | _ :: _, [] => none

/-- Prepend a parsed character to the result of a string-body parse. -/
def consFirst (c : Char) : Option (List Char × List Char) → Option (List Char × List Char)
  | none => none
  | some (cs, r) => some (c :: cs, r)

/-- Decode one escape sequence (the part after the backslash), as
`json.loads` does: the shorthand escapes, and `\uXXXX` with surrogate-pair
recombination.  Returns the decoded character and the remaining input. -/
def parseEscape : List Char → Option (Char × List Char)
  | [] => none
  | e :: l2 =>
    if e = '"' then some ('"', l2)
    else if e = '\\' then some ('\\', l2)
    else if e = '/' then some ('/', l2)
    else if e = 'n' then some ('\n', l2)
    else if e = 't' then some ('\t', l2)
    else if e = 'r' then some ('\r', l2)
    else if e = 'b' then some (Char.ofNat 8, l2)
    else if e = 'f' then some (Char.ofNat 12, l2)
    else if e = 'u' then
      match l2 with
      | a :: b :: c2 :: d :: l3 =>
        match hex4Val a b c2 d with
        | none => none
        | some v =>
          if 55296 ≤ v ∧ v ≤ 56319 then
            match l3 with
            | '\\' :: 'u' :: a2 :: b2 :: c3 :: d2 :: l4 =>
              match hex4Val a2 b2 c3 d2 with
              | none => none
              | some w =>
                if 56320 ≤ w ∧ w ≤ 57343 then
                  some (Char.ofNat (65536 + (v - 55296) * 1024 + (w - 56320)), l4)
                else none
            | _ => none
          else if 56320 ≤ v ∧ v ≤ 57343 then none
          else some (Char.ofNat v, l3)
      | _ => none
    else none

/-- The string-literal loop: read characters and escapes until the closing
quote (fuelled; one unit of fuel per decoded character). -/
def parseStrGo : Nat → List Char → Option (List Char × List Char)
  | 0, _ => none
  | _ + 1, [] => none
  | fuel + 1, c :: l1 =>
    if c = '"' then some ([], l1)
    else if c = '\\' then
      match parseEscape l1 with
      | none => none
      | some (d, l2) => consFirst d (parseStrGo fuel l2)
    else consFirst c (parseStrGo fuel l1)

/-- Parse the body of a JSON string literal up to and including the closing
quote, decoding escapes the way `json.loads` does; returns the decoded
characters and the input after the closing quote.  The fuel, one more than
the input length, never runs out because every decoded character consumes at
least one input character. -/
def parseStringBody (l : List Char) : Option (List Char × List Char) :=
  parseStrGo (l.length + 1) l

/-- Consume a run of decimal digits, accumulating their value. -/
def parseNatAux : List Char → Nat → Nat × List Char
  | [], acc => (acc, [])
  | c :: l, acc =>
    if c.isDigit then parseNatAux l (acc * 10 + (c.toNat - 48)) else (acc, c :: l)

/-- Parse a nonempty run of decimal digits. -/
def parseNat : List Char → Option (Nat × List Char)
  | [] => none
  | c :: l => if c.isDigit then some (parseNatAux (c :: l) 0) else none

mutual

/-- Parse one JSON value from the canonical serialized form (fuelled). -/
def parseV : Nat → List Char → Option (Json × List Char)
  | 0, _ => none
  | _ + 1, [] => none
  | fuel + 1, c :: l1 =>
    if c = 'n' then (dropLit ['u', 'l', 'l'] l1).map (fun r => (Json.null, r))
    else if c = 't' then (dropLit ['r', 'u', 'e'] l1).map (fun r => (Json.bool true, r))
    else if c = 'f' then (dropLit ['a', 'l', 's', 'e'] l1).map (fun r => (Json.bool false, r))
    else if c = '"' then (parseStringBody l1).map (fun p => (Json.str (String.mk p.1), p.2))
    else if c = '[' then (parseElems fuel l1).map (fun p => (Json.arr p.1, p.2))
    else if c = lbrace then (parseMembers fuel l1).map (fun p => (Json.obj p.1, p.2))
    else if c = '-' then (parseNat l1).map (fun p => (Json.num (-(p.1 : Int)), p.2))
    else if c.isDigit then (parseNat (c :: l1)).map (fun p => (Json.num (p.1 : Int), p.2))
    else none

/-- Parse array elements after the opening bracket, including the closing
bracket. -/
def parseElems : Nat → List Char → Option (List Json × List Char)
  | 0, _ => none
  | _ + 1, [] => none
  | fuel + 1, c :: l1 =>
    if c = ']' then some ([], l1)
    else
      match parseV fuel (c :: l1) with
      | none => none
      | some (v, r) =>
        match r with
        | [] => none
        | x :: r2 =>
          if x = ']' then some ([v], r2)
          else if x = ',' then
            match r2 with
            | [] => none
            | y :: r3 =>
              if y = ' ' then (parseElems fuel r3).map (fun p => (v :: p.1, p.2))
              else none
          else none

/-- Parse object members after the opening brace, including the closing
brace. -/
def parseMembers : Nat → List Char → Option (List (String × Json) × List Char)
  | 0, _ => none
  | _ + 1, [] => none
  | fuel + 1, c :: l1 =>
    if c = rbrace then some ([], l1)
    else if c = '"' then
      match parseStringBody l1 with
      | none => none
      | some (kcs, r1) =>
        match r1 with
        | ':' :: ' ' :: r2 =>
          match parseV fuel r2 with
          | none => none
          | some (v, r3) =>
            match r3 with
            | [] => none
            | x :: r4 =>
              if x = rbrace then some ([(String.mk kcs, v)], r4)
              else if x = ',' then
                match r4 with
                | [] => none
                | y :: r5 =>
                  if y = ' ' then
                    (parseMembers fuel r5).map (fun p => ((String.mk kcs, v) :: p.1, p.2))
                  else none
              else none
        | _ => none
    else none

end

mutual

/-- Structural size of a JSON value, used to budget parser fuel. -/
def sizeJ : Json → Nat
  | .arr xs => sizeL xs + 2
  | .obj kvs => sizeM kvs + 2
  | _ => 1

/-- Structural size of an array's elements. -/
def sizeL : List Json → Nat
  | [] => 0
  | x :: xs => sizeJ x + sizeL xs + 1

/-- Structural size of an object's members. -/
def sizeM : List (String × Json) → Nat
  | [] => 0
  | kv :: kvs => sizeJ kv.2 + sizeM kvs + 1

end

/-- Model of `json.dumps` with its default options. -/
def json_dumps (j : Json) : String := String.mk (dumpsV j)

/-- Fuel that provably suffices to parse any serialized value of this
length. -/
def jsonFuel (l : List Char) : Nat := 2 * l.length + 2

/-- Model of `json.loads`, evaluated on the canonical serialized form: parse one value
and insist the input is fully consumed. -/
def json_loads (s : String) : Option Json :=
  match parseV (jsonFuel s.data) s.data with
  | some (j, []) => some j
  | _ => none

/-! ## ReadWriteToSQS

Each queue operation first resolves the queue name to a queue URL with
`get_queue_url` — outside any `try`, so a `ClientError` raised there (for
instance `QueueDoesNotExist`) propagates to the caller — and then performs
its own client call inside a `try` that catches `ClientError` and logs.
`retrieve_sqs_messages` passes `MaxNumberOfMessages=1`, `WaitTimeSeconds=20`
and `VisibilityTimeout=600`; received messages are not removed from the
queue. -/

/-- A `botocore` `ClientError`, identified by its service error code. -/
structure ClientError where
  code : String
deriving DecidableEq, Repr

/-- The modelled SQS service: name-to-URL resolution data and, per queue URL,
the bodies of the messages currently visible, in delivery order. -/
structure SqsState where
  queues : List (String × String)
  messages : List (String × List String)
deriving DecidableEq, Repr

/-- Model of `ReadWriteToSQS.__get_queue_url`: resolves the queue name through the
live `get_queue_url` call; an unknown queue makes the client raise. -/
def get_queue_url (st : SqsState) (queue_name : String) : Except ClientError String :=
  match st.queues.lookup queue_name with
  | some url => .ok url
  | none => .error ⟨"QueueDoesNotExist"⟩

/-- Append a body to the queue at `url` (the service side of `send_message`). -/
def enqueue : List (String × List String) → String → String → List (String × List String)
  | [], url, b => [(url, [b])]
  | (u, bs) :: rest, url, b =>
    if u = url then (u, bs ++ [b]) :: rest else (u, bs) :: enqueue rest url b

/-- What `send_sqs_message` hands back: the service response (`none` models
the `None` returned after a caught `ClientError`) and the logs. -/
structure SendOutcome where
  response : Option String
  logs : List LogEntry
deriving DecidableEq, Repr

/-- Model of `ReadWriteToSQS.send_sqs_message`: resolve the URL (uncaught), then
`send_message(QueueUrl, MessageBody=json.dumps(param))` inside the `try`.
Returns the updated service state with the outcome. -/
def send_sqs_message (st : SqsState) (param : Json) (queue_name : String)
    (clientFail : Bool) : Except ClientError (SqsState × SendOutcome) :=
  match get_queue_url st queue_name with
  | .error e => .error e
  | .ok url =>
    if clientFail then
      .ok (st, ⟨none, [⟨true, "Failed to send message to sqs queue"⟩]⟩)
    else
      .ok ({ st with messages := enqueue st.messages url (json_dumps param) },
           ⟨some "message-id", [⟨false, "Message successfully sent to SQS"⟩]⟩)

/-- The parameters of one `receive_message` call issued against the client. -/
structure SqsReceiveCall where
  queueUrl : String
  maxNumberOfMessages : Nat
  waitTimeSeconds : Nat
  visibilityTimeout : Nat
deriving DecidableEq, Repr

/-- A `receive_message` response: the bodies of the delivered messages.  An
empty list models a response dictionary carrying no `Messages` key — still a
response object, not `None`. -/
structure ReceiveResponse where
  messages : List String
deriving DecidableEq, Repr

/-- What `retrieve_sqs_messages` hands back: the receive calls it issued,
the returned value (`none` models the `None` returned after a caught
`ClientError`), and the logs. -/
structure RetrieveOutcome where
  issued : List SqsReceiveCall
  response : Option ReceiveResponse
  logs : List LogEntry
deriving DecidableEq, Repr

/-- Model of `ReadWriteToSQS.retrieve_sqs_messages`: resolve the URL (uncaught), then
`receive_message(QueueUrl, MaxNumberOfMessages=1, WaitTimeSeconds=20,
VisibilityTimeout=600)` inside the `try`; the whole response is returned and
the queue keeps the message. -/
def retrieve_sqs_messages (st : SqsState) (queue_name : String)
    (clientFail : Bool) : Except ClientError RetrieveOutcome :=
  match get_queue_url st queue_name with
  | .error e => .error e
  | .ok url =>
    let call : SqsReceiveCall := ⟨url, 1, 20, 600⟩
    if clientFail then
      .ok ⟨[call], none, [⟨true, "Failed to retrieve message from SQS"⟩]⟩
    else
      .ok ⟨[call], some ⟨((st.messages.lookup url).getD []).take 1⟩,
           [⟨false, "Message successfully read from SQS"⟩]⟩

/-- What `delete_sqs_message` hands back: the `(queue url, receipt handle)`
delete calls that went through, and the logs. -/
structure DeleteOutcome where
  deletes : List (String × String)
  logs : List LogEntry
deriving DecidableEq, Repr

/-- Model of `ReadWriteToSQS.delete_sqs_message`: resolve the URL (uncaught), then
`delete_message(QueueUrl, ReceiptHandle)` inside the `try`; a stale or
already-consumed receipt handle surfaces as a `ClientError`, caught and
logged. -/
def delete_sqs_message (st : SqsState) (queue_name receipt_handle : String)
    (clientFail : Bool) : Except ClientError DeleteOutcome :=
  match get_queue_url st queue_name with
  | .error e => .error e
  | .ok url =>
    if clientFail then
      .ok ⟨[], [⟨true, "Failed to delete message with ReceiptHandle"⟩]⟩
    else
      .ok ⟨[(url, receipt_handle)],
           [⟨false, "message successfully deleted with ReceiptHandle"⟩]⟩

/-! ## Supporting lemmas for the CSV claims -/

/-- In a header whose first name is not repeated, `dict(zip(...))` binds the
first header name at index 0. -/
theorem lastIdxOf_head (h0 : String) (hs : List String) (h : h0 ∉ hs) :
    lastIdxOf (h0 :: hs) h0 = some 0 := by
  unfold lastIdxOf
  have hlen : (h0 :: hs).length = hs.length + 1 := rfl
  rw [hlen, List.range_succ_eq_map, List.filter_cons]
  have h0true : ((h0 :: hs)[0]? == some h0) = true := by simp
  rw [if_pos h0true]
  have hnil : List.filter (fun i => (h0 :: hs)[i]? == some h0)
      ((List.range hs.length).map Nat.succ) = [] := by
    rw [List.filter_eq_nil_iff]
    intro i hi
    obtain ⟨j, _, rfl⟩ := List.mem_map.mp hi
    simp only [Nat.succ_eq_add_one, List.getElem?_cons_succ, beq_iff_eq]
    intro heq
    exact h (List.getElem?_mem heq)
  rw [hnil]
  rfl

/-- A nonempty data row under a header whose first name is not repeated is
processed to its first field, lower-cased. -/
theorem processRow_head (h0 : String) (hs : List String) (r : CsvRow)
    (hdup : h0 ∉ hs) (hr : r ≠ []) :
    processRow (h0 :: hs) r = .ok (pyLower (r.headD "")) := by
  obtain ⟨a, t, rfl⟩ : ∃ a t, r = a :: t := by
    cases r with
    | nil => exact absurd rfl hr
    | cons a t => exact ⟨a, t, rfl⟩
  unfold processRow dictZipGet
  simp [lastIdxOf_head h0 hs hdup]

/-- The processing loop maps `processRow` across the data rows when no row
faults. -/
theorem processRows_map (fields : List String) (g : CsvRow → String)
    (rs : List CsvRow) (h : ∀ r ∈ rs, processRow fields r = .ok (g r)) :
    processRows fields rs = .ok (rs.map g) := by
  induction rs with
  | nil => rfl
  | cons r rs ih =>
    have hr := h r (List.mem_cons_self r rs)
    have hrest := ih (fun x hx => h x (List.mem_cons_of_mem r hx))
    simp only [processRows, hr, hrest, List.map_cons]
    rfl

/-- Every row the `DictReader` yields is nonempty (blank rows are skipped). -/
theorem dataRows_ne_nil (f : CsvFile) : ∀ r ∈ dataRows f, r ≠ [] := by
  intro r hr
  have := List.of_mem_filter hr
  intro hnil
  subst hnil
  simp at this

/-! ## Claims C1, C2 and C10 -/

/-- C1.  For every CSV file that exists at the resolved path and has a header
row (whose first name is not repeated later in the header), `csv_to_list`
returns, for each data row in file order, the value under the first header's
key — its first field — lower-cased. -/
theorem csv_to_list_first_column_lowercased
    (resolve : String → String) (fs : String → Option CsvFile)
    (file_name : String) (f : CsvFile) (h0 : String) (hs : List String)
    (rows : List CsvRow)
    (hfile : fs (resolve file_name) = some f)
    (hshape : f = (h0 :: hs) :: rows)
    (hdup : h0 ∉ hs) :
    csv_to_list resolve fs file_name =
      .ok ⟨some ((dataRows f).map (fun r => pyLower (r.headD ""))), []⟩ := by
  subst hshape
  have hrows := processRows_map (h0 :: hs) (fun r => pyLower (r.headD ""))
    (dataRows ((h0 :: hs) :: rows))
    (fun r hr => processRow_head h0 hs r hdup (dataRows_ne_nil _ r hr))
  simp only [csv_to_list, hfile, fieldnames, List.head?, hrows]

/-- C1, witnessed at the spec's example: header `keyword, location`, rows
`Foo, US` and `Bar, UK` ingest to `foo, bar`. -/
theorem csv_to_list_first_column_lowercased_witness :
    csv_to_list id
      (fun s => if s = "kws.csv" then
        some [["keyword", "location"], ["Foo", "US"], ["Bar", "UK"]] else none)
      "kws.csv" = .ok ⟨some ["foo", "bar"], []⟩ := by
  have h := csv_to_list_first_column_lowercased id
    (fun s => if s = "kws.csv" then
      some [["keyword", "location"], ["Foo", "US"], ["Bar", "UK"]] else none)
    "kws.csv" [["keyword", "location"], ["Foo", "US"], ["Bar", "UK"]]
    "keyword" ["location"] [["Foo", "US"], ["Bar", "UK"]]
    (by decide) rfl (by decide)
  exact h.trans (by decide)

/-- C2.  For every file identifier whose resolved path has no file,
`csv_to_list` raises no fault, logs the file-not-found error, and returns
`None`. -/
theorem csv_to_list_missing_file_logs_and_returns_none
    (resolve : String → String) (fs : String → Option CsvFile)
    (file_name : String) (h : fs (resolve file_name) = none) :
    csv_to_list resolve fs file_name =
      .ok ⟨none, [⟨true, "csv file not found"⟩]⟩ := by
  unfold csv_to_list
  rw [h]

/-- C2, witnessed on an empty filesystem. -/
theorem csv_to_list_missing_file_logs_and_returns_none_witness :
    csv_to_list id (fun _ => none) "absent.csv" =
      .ok ⟨none, [⟨true, "csv file not found"⟩]⟩ :=
  csv_to_list_missing_file_logs_and_returns_none id (fun _ => none) "absent.csv" rfl

/-- C10.  There is an existing input file with no header row — its first line
is blank, so `fieldnames` is the empty list — on which `csv_to_list` raises
an uncaught `IndexError` from `fields_names[0]` instead of returning or
logging: only `FileNotFoundError` is handled. -/
theorem csv_to_list_headerless_file_faults :
    csv_to_list id
      (fun s => if s = "broken.csv" then some [[], ["Foo", "US"]] else none)
      "broken.csv" = .error .indexError := by decide

/-! ## Claims C3, C6 and C9 -/

/-- C3.  `list_all_path_in_s3_folder` returns at most 100 object keys, and
when exactly 150 keys of the bucket match the prefix, a successful call
returns exactly 100 of them, not 150. -/
theorem list_all_path_in_s3_folder_at_most_100
    (buckets : String → List String) (bucket_name s3_path : String)
    (clientFail : Bool) :
    (∀ l, (list_all_path_in_s3_folder buckets bucket_name s3_path clientFail).ret = some l →
      l.length ≤ 100) ∧
    (clientFail = false →
      ((buckets bucket_name).filter (fun k => strStartsWith k s3_path)).length = 150 →
      ∃ l, (list_all_path_in_s3_folder buckets bucket_name s3_path clientFail).ret = some l ∧
        l.length = 100) := by
  constructor
  · intro l hl
    cases clientFail with
    | true => simp [list_all_path_in_s3_folder] at hl
    | false =>
      simp only [list_all_path_in_s3_folder, list_objects_v2_contents] at hl
      by_cases hp : ((((buckets bucket_name).filter
          (fun k => strStartsWith k s3_path)).take 100).isEmpty) = true
      · rw [if_pos hp] at hl
        exact absurd hl (by simp)
      · rw [if_neg hp] at hl
        injection hl with h
        rw [← h]
        exact List.length_take_le 100 _
  · intro hf h150
    subst hf
    have hb : ((((buckets bucket_name).filter
        (fun k => strStartsWith k s3_path)).take 100).isEmpty) = false := by
      rw [Bool.eq_false_iff]
      intro hempty
      rw [List.isEmpty_iff] at hempty
      have hlen := congrArg List.length hempty
      rw [List.length_take, h150, List.length_nil] at hlen
      omega
    refine ⟨((buckets bucket_name).filter (fun k => strStartsWith k s3_path)).take 100,
      ?_, ?_⟩
    · simp [list_all_path_in_s3_folder, list_objects_v2_contents, hb]
    · rw [List.length_take, h150]
      omega

set_option maxRecDepth 4096 in
/-- C3, witnessed on a bucket with 150 keys under the prefix `k`. -/
theorem list_all_path_in_s3_folder_at_most_100_witness :
    (((List.range 150).map (fun i => "k" ++ toString i)).filter
        (fun k => strStartsWith k "k")).length = 150 ∧
    ∃ l, (list_all_path_in_s3_folder
        (fun _ => (List.range 150).map (fun i => "k" ++ toString i))
        "data.collection" "k" false).ret = some l ∧ l.length = 100 :=
  ⟨by decide,
   (list_all_path_in_s3_folder_at_most_100
     (fun _ => (List.range 150).map (fun i => "k" ++ toString i))
     "data.collection" "k" false).2 rfl (by decide)⟩

/-- C6.  When `object_name` is `None`, `write_file_to_s3` defaults it to the
payload-source identifier `file_name`; a given `object_name` is kept
unchanged. -/
theorem write_file_to_s3_object_name_default
    (file_name bucket_name s3_path oname : String) (clientFail : Bool) :
    (write_file_to_s3 file_name bucket_name s3_path none clientFail).objectNameEff =
      file_name ∧
    (write_file_to_s3 file_name bucket_name s3_path (some oname) clientFail).objectNameEff =
      oname := by
  cases clientFail <;> exact ⟨rfl, rfl⟩

/-- C9.  A successful `write_file_to_s3` puts one object whose key is
`s3_path` and whose body is the `file_name` string itself, whatever
`object_name` is — the defaulted display name never reaches the put. -/
theorem write_file_to_s3_put_ignores_object_name
    (file_name bucket_name s3_path : String) (object_name : Option String) :
    (write_file_to_s3 file_name bucket_name s3_path object_name false).puts =
      [⟨bucket_name, s3_path, file_name⟩] := by
  cases object_name <;> rfl

/-! ## Claims C4, C5 and C8 -/

/-- C4, counterexample.  Performing a delete against an unknown queue makes
the queue-URL resolution raise `QueueDoesNotExist` — a client-level failure
that is not caught or logged but propagates to the caller, contradicting the
claim that every client-level failure during a queue operation is caught. -/
theorem delete_sqs_message_url_failure_propagates :
    delete_sqs_message ⟨[], []⟩ "jobs" "rh" false =
      .error ⟨"QueueDoesNotExist"⟩ := by decide

/-- C4, amended.  Client-level failures raised by the send, receive and
delete client calls themselves (for instance a stale or already-consumed
receipt handle on delete) are caught and logged as queue errors and do not
propagate; only a failure during queue-URL resolution escapes. -/
theorem sqs_operations_catch_own_client_failures
    (st : SqsState) (queue_name url receipt_handle : String) (param : Json)
    (h : st.queues.lookup queue_name = some url) :
    delete_sqs_message st queue_name receipt_handle true =
      .ok ⟨[], [⟨true, "Failed to delete message with ReceiptHandle"⟩]⟩ ∧
    send_sqs_message st param queue_name true =
      .ok (st, ⟨none, [⟨true, "Failed to send message to sqs queue"⟩]⟩) ∧
    retrieve_sqs_messages st queue_name true =
      .ok ⟨[⟨url, 1, 20, 600⟩], none,
        [⟨true, "Failed to retrieve message from SQS"⟩]⟩ := by
  simp [delete_sqs_message, send_sqs_message, retrieve_sqs_messages,
    get_queue_url, h]

/-- C4, amended, witnessed on a one-queue service. -/
theorem sqs_operations_catch_own_client_failures_witness :
    delete_sqs_message ⟨[("jobs", "u1")], []⟩ "jobs" "rh" true =
      .ok ⟨[], [⟨true, "Failed to delete message with ReceiptHandle"⟩]⟩ ∧
    send_sqs_message ⟨[("jobs", "u1")], []⟩ Json.null "jobs" true =
      .ok (⟨[("jobs", "u1")], []⟩, ⟨none, [⟨true, "Failed to send message to sqs queue"⟩]⟩) ∧
    retrieve_sqs_messages ⟨[("jobs", "u1")], []⟩ "jobs" true =
      .ok ⟨[⟨"u1", 1, 20, 600⟩], none,
        [⟨true, "Failed to retrieve message from SQS"⟩]⟩ :=
  sqs_operations_catch_own_client_failures ⟨[("jobs", "u1")], []⟩ "jobs" "u1" "rh"
    Json.null rfl

/-- C5.  Every receive that `retrieve_sqs_messages` issues carries exactly
the fixed constants: at most 1 message, a 20-second long-poll wait and a
600-second visibility timeout; the caller supplies only the queue name, so
none of the three is configurable. -/
theorem retrieve_sqs_messages_fixed_constants
    (st : SqsState) (queue_name url : String) (clientFail : Bool)
    (h : st.queues.lookup queue_name = some url) :
    ∃ out, retrieve_sqs_messages st queue_name clientFail = .ok out ∧
      out.issued = [⟨url, 1, 20, 600⟩] := by
  cases clientFail with
  | true =>
    exact ⟨⟨[⟨url, 1, 20, 600⟩], none, [⟨true, "Failed to retrieve message from SQS"⟩]⟩,
      by simp [retrieve_sqs_messages, get_queue_url, h], rfl⟩
  | false =>
    exact ⟨⟨[⟨url, 1, 20, 600⟩], some ⟨((st.messages.lookup url).getD []).take 1⟩,
      [⟨false, "Message successfully read from SQS"⟩]⟩,
      by simp [retrieve_sqs_messages, get_queue_url, h], rfl⟩

/-- C5, witnessed on a one-queue service. -/
theorem retrieve_sqs_messages_fixed_constants_witness :
    ∃ out, retrieve_sqs_messages ⟨[("jobs", "u1")], []⟩ "jobs" false = .ok out ∧
      out.issued = [⟨"u1", 1, 20, 600⟩] :=
  retrieve_sqs_messages_fixed_constants ⟨[("jobs", "u1")], []⟩ "jobs" "u1" false rfl

/-- C8, counterexample.  A receive that fails at the client level returns
`None`, but a receive that succeeds on an empty queue returns a response
object (with no messages): the two return values differ, so a failed receive
is distinguishable from an empty one, contradicting the claim that every
operation collapses the two cases. -/
theorem receive_failure_distinguishable_from_empty :
    retrieve_sqs_messages ⟨[("q", "u")], []⟩ "q" false =
      .ok ⟨[⟨"u", 1, 20, 600⟩], some ⟨[]⟩,
        [⟨false, "Message successfully read from SQS"⟩]⟩ ∧
    retrieve_sqs_messages ⟨[("q", "u")], []⟩ "q" true =
      .ok ⟨[⟨"u", 1, 20, 600⟩], none,
        [⟨true, "Failed to retrieve message from SQS"⟩]⟩ ∧
    some (⟨[]⟩ : ReceiveResponse) ≠ (none : Option ReceiveResponse) := by decide

/-- C8, amended.  For the S3 listing the ambiguity is real: a client failure
and a successful listing with zero matching keys both return `None`.  For
the queue receive it is not: a client failure returns `None` while a
successful receive of an empty queue returns a response object carrying no
messages. -/
theorem empty_vs_failed_results
    (buckets : String → List String) (bucket_name s3_path : String)
    (st : SqsState) (queue_name url : String)
    (hq : st.queues.lookup queue_name = some url)
    (hz : (buckets bucket_name).filter (fun k => strStartsWith k s3_path) = [])
    (he : (st.messages.lookup url).getD [] = []) :
    (list_all_path_in_s3_folder buckets bucket_name s3_path true).ret = none ∧
    (list_all_path_in_s3_folder buckets bucket_name s3_path false).ret = none ∧
    retrieve_sqs_messages st queue_name true =
      .ok ⟨[⟨url, 1, 20, 600⟩], none,
        [⟨true, "Failed to retrieve message from SQS"⟩]⟩ ∧
    retrieve_sqs_messages st queue_name false =
      .ok ⟨[⟨url, 1, 20, 600⟩], some ⟨[]⟩,
        [⟨false, "Message successfully read from SQS"⟩]⟩ := by
  refine ⟨rfl, ?_, ?_, ?_⟩
  · simp [list_all_path_in_s3_folder, list_objects_v2_contents, hz]
  · simp [retrieve_sqs_messages, get_queue_url, hq]
  · simp [retrieve_sqs_messages, get_queue_url, hq, he]

/-- C8, amended, witnessed on an empty bucket and an empty queue. -/
theorem empty_vs_failed_results_witness :
    (list_all_path_in_s3_folder (fun _ => []) "data.collection" "p" true).ret = none ∧
    (list_all_path_in_s3_folder (fun _ => []) "data.collection" "p" false).ret = none ∧
    retrieve_sqs_messages ⟨[("q", "u")], []⟩ "q" true =
      .ok ⟨[⟨"u", 1, 20, 600⟩], none,
        [⟨true, "Failed to retrieve message from SQS"⟩]⟩ ∧
    retrieve_sqs_messages ⟨[("q", "u")], []⟩ "q" false =
      .ok ⟨[⟨"u", 1, 20, 600⟩], some ⟨[]⟩,
        [⟨false, "Message successfully read from SQS"⟩]⟩ :=
  empty_vs_failed_results (fun _ => []) "data.collection" "p" ⟨[("q", "u")], []⟩
    "q" "u" rfl rfl rfl

/-! ## Round trip of the JSON serializer: character and number lemmas -/

/-- A Unicode scalar value is below the surrogate block or above it. -/
theorem char_toNat_valid (c : Char) :
    c.toNat < 55296 ∨ (57343 < c.toNat ∧ c.toNat < 1114112) := by
  rcases c.valid with h | h
  · exact Or.inl h
  · exact Or.inr h

/-- Hexadecimal digits decode back to their value. -/
theorem hexVal_hexDigitChar : ∀ d : Nat, d < 16 → hexVal (hexDigitChar d) = some d := by
  decide

/-- A four-digit hexadecimal escape decodes back to the escaped value. -/
theorem hex4Val_hex4 (n : Nat) (h : n < 65536) :
    hex4Val (hexDigitChar (n / 4096 % 16)) (hexDigitChar (n / 256 % 16))
      (hexDigitChar (n / 16 % 16)) (hexDigitChar (n % 16)) = some n := by
  unfold hex4Val
  rw [hexVal_hexDigitChar _ (Nat.mod_lt _ (by omega)),
    hexVal_hexDigitChar _ (Nat.mod_lt _ (by omega)),
    hexVal_hexDigitChar _ (Nat.mod_lt _ (by omega)),
    hexVal_hexDigitChar _ (Nat.mod_lt _ (by omega))]
  have h16 : n / 4096 % 16 * 4096 + n / 256 % 16 * 256 + n / 16 % 16 * 16 + n % 16 = n := by
    omega
  show some (n / 4096 % 16 * 4096 + n / 256 % 16 * 256 + n / 16 % 16 * 16 + n % 16) = some n
  exact congrArg some h16

/-- Facts about decimal digit characters needed to steer the parser: a digit
character is a digit and is none of the characters the value parser
dispatches on first. -/
theorem digitChar_facts : ∀ d : Nat, d < 10 →
    (digitChar d).isDigit = true ∧ (digitChar d).toNat = 48 + d ∧
    digitChar d ≠ 'n' ∧ digitChar d ≠ 't' ∧ digitChar d ≠ 'f' ∧
    digitChar d ≠ '"' ∧ digitChar d ≠ '[' ∧ digitChar d ≠ lbrace ∧
    digitChar d ≠ '-' ∧ digitChar d ≠ ']' := by
  decide

/-- Every entry `bigDigits` produces is a decimal digit. -/
theorem bigDigits_lt : ∀ fuel n d, d ∈ bigDigits fuel n → d < 10 := by
  intro fuel
  induction fuel with
  | zero => intro n d hd; simp [bigDigits] at hd
  | succ fuel ih =>
    intro n d hd
    by_cases hn : n = 0
    · simp [bigDigits, hn] at hd
    · rw [bigDigits, if_neg hn] at hd
      rcases List.mem_append.mp hd with h | h
      · exact ih _ _ h
      · rw [List.mem_singleton] at h
        subst h
        exact Nat.mod_lt _ (by omega)

/-- With fuel at least `n`, a positive `n` yields at least one digit. -/
theorem bigDigits_ne_nil : ∀ fuel n, 0 < n → n ≤ fuel → bigDigits fuel n ≠ [] := by
  intro fuel
  cases fuel with
  | zero => intro n h1 h2 _; omega
  | succ fuel =>
    intro n h1 _ hnil
    rw [bigDigits, if_neg (by omega)] at hnil
    exact absurd hnil (List.append_ne_nil_of_right_ne_nil _ (by simp))

/-- Folding the produced digits most-significant-first rebuilds the number. -/
theorem foldl_bigDigits : ∀ fuel n acc, n ≤ fuel →
    (bigDigits fuel n).foldl (fun a d => a * 10 + d) acc =
      acc * 10 ^ (bigDigits fuel n).length + n := by
  intro fuel
  induction fuel with
  | zero => intro n acc h; interval_cases n; simp [bigDigits]
  | succ fuel ih =>
    intro n acc h
    by_cases hn : n = 0
    · simp [bigDigits, hn]
    · rw [bigDigits, if_neg hn, List.foldl_append, List.length_append]
      rw [ih (n / 10) acc (by omega)]
      simp only [List.foldl_cons, List.foldl_nil, List.length_cons, List.length_nil]
      rw [pow_succ]
      have hsplit : n / 10 * 10 + n % 10 = n := by omega
      ring_nf
      omega

/-- The continuation after a serialized number never begins with a digit. -/
def noDigitHead : List Char → Prop
  | [] => True
  | c :: _ => c.isDigit = false

/-- The helper `parseNatAux` consumes exactly a block of digit characters, rebuilding
the folded value. -/
theorem parseNatAux_digits : ∀ es : List Nat, ∀ acc rest, (∀ d ∈ es, d < 10) →
    noDigitHead rest →
    parseNatAux (es.map digitChar ++ rest) acc =
      (es.foldl (fun a d => a * 10 + d) acc, rest) := by
  intro es
  induction es with
  | nil =>
    intro acc rest _ hrest
    cases rest with
    | nil => rfl
    | cons c l =>
      simp only [List.map_nil, List.nil_append, parseNatAux]
      rw [if_neg (by simp [noDigitHead] at hrest; simp [hrest])]
      rfl
  | cons d es ih =>
    intro acc rest hlt hrest
    have hd := hlt d (List.mem_cons_self d es)
    obtain ⟨hdig, htn, -⟩ := digitChar_facts d hd
    simp only [List.map_cons, List.cons_append, parseNatAux]
    rw [if_pos hdig, htn]
    have hsub : 48 + d - 48 = d := by omega
    rw [hsub, List.append_eq, ih _ rest (fun x hx => hlt x (List.mem_cons_of_mem d hx)) hrest]
    simp only [List.foldl_cons]

/-- A serialized natural number parses back to itself. -/
theorem parseNat_natChars (n : Nat) (rest : List Char) (hrest : noDigitHead rest) :
    parseNat (natChars n ++ rest) = some (n, rest) := by
  by_cases hn : n = 0
  · subst hn
    have h := parseNatAux_digits [0] 0 rest (by decide) hrest
    simp only [List.map_cons, List.map_nil, List.foldl_cons, List.foldl_nil] at h
    simpa [natChars, parseNat] using h
  · have hne := bigDigits_ne_nil n n (by omega) (le_refl n)
    obtain ⟨d, es, hds⟩ := List.exists_cons_of_ne_nil hne
    have hlt : ∀ x ∈ bigDigits n n, x < 10 := fun x hx => bigDigits_lt n n x hx
    have hfold := foldl_bigDigits n n 0 (le_refl n)
    have hparse := parseNatAux_digits (bigDigits n n) 0 rest hlt hrest
    rw [hfold] at hparse
    simp only [Nat.zero_mul, Nat.zero_add] at hparse
    have hd10 : d < 10 := hlt d (hds ▸ List.mem_cons_self d es)
    obtain ⟨hdig, -⟩ := digitChar_facts d hd10
    unfold natChars
    rw [if_neg hn]
    rw [hds] at hparse ⊢
    simp only [List.map_cons, List.cons_append, parseNat]
    rw [if_pos hdig]
    simp only [List.map_cons, List.cons_append] at hparse
    rw [hparse]

/-- Decoding a surrogate-pair escape recombines the two halves. -/
theorem parseEscape_surrogate (hi lo : Nat) (rest : List Char)
    (hb1 : hi < 65536) (hb2 : lo < 65536)
    (hr : 55296 ≤ hi ∧ hi ≤ 56319) (hl : 56320 ≤ lo ∧ lo ≤ 57343) :
    parseEscape ('u' :: (hex4 hi ++ '\\' :: 'u' :: (hex4 lo ++ rest))) =
      some (Char.ofNat (65536 + (hi - 55296) * 1024 + (lo - 56320)), rest) := by
  rw [hex4, hex4]
  simp only [List.cons_append, List.nil_append, List.append_assoc]
  simp only [parseEscape]
  rw [if_neg (by decide : ¬('u' : Char) = '"'), if_neg (by decide : ¬('u' : Char) = '\\'),
    if_neg (by decide : ¬('u' : Char) = '/'), if_neg (by decide : ¬('u' : Char) = 'n'),
    if_neg (by decide : ¬('u' : Char) = 't'), if_neg (by decide : ¬('u' : Char) = 'r'),
    if_neg (by decide : ¬('u' : Char) = 'b'), if_neg (by decide : ¬('u' : Char) = 'f')]
  rw [if_pos (trivial : True)]
  rw [hex4Val_hex4 _ hb1]
  simp only []
  rw [if_pos hr]
  rw [hex4Val_hex4 _ hb2]
  simp only []
  rw [if_pos hl]

/-- Decoding one escape inverts `escapeChar` on every character that
`escapeChar` renders with a backslash. -/
theorem parseEscape_escapeChar (c : Char) (rest : List Char)
    (h : escapeChar c = '\\' :: (escapeChar c).tail) :
    parseEscape ((escapeChar c).tail ++ rest) = some (c, rest) := by
  by_cases h1 : c = '"'
  · subst h1; simp [escapeChar, parseEscape]
  by_cases h2 : c = '\\'
  · subst h2; simp [escapeChar, parseEscape]
  by_cases h3 : 32 ≤ c.toNat ∧ c.toNat ≤ 126
  · rw [escapeChar, if_neg h1, if_neg h2, if_pos h3] at h
    exact absurd (congrArg List.head? h) (by simp; intro hc; exact h2 hc)
  by_cases h4 : c = '\n'
  · subst h4; simp [escapeChar, parseEscape]
  by_cases h5 : c = '\t'
  · subst h5; simp [escapeChar, parseEscape]
  by_cases h6 : c = '\r'
  · subst h6; simp [escapeChar, parseEscape]
  by_cases h7 : c.toNat = 8
  · have hc : Char.ofNat 8 = c := by rw [← h7, Char.ofNat_toNat]
    rw [escapeChar, if_neg h1, if_neg h2, if_neg h3, if_neg h4, if_neg h5, if_neg h6,
      if_pos h7]
    simp [parseEscape]
    exact hc
  by_cases h8 : c.toNat = 12
  · have hc : Char.ofNat 12 = c := by rw [← h8, Char.ofNat_toNat]
    rw [escapeChar, if_neg h1, if_neg h2, if_neg h3, if_neg h4, if_neg h5, if_neg h6,
      if_neg h7, if_pos h8]
    simp [parseEscape]
    exact hc
  by_cases h9 : c.toNat < 65536
  · have hns1 : ¬(55296 ≤ c.toNat ∧ c.toNat ≤ 56319) := by
      rcases char_toNat_valid c with hv | hv <;> omega
    have hns2 : ¬(56320 ≤ c.toNat ∧ c.toNat ≤ 57343) := by
      rcases char_toNat_valid c with hv | hv <;> omega
    rw [escapeChar, if_neg h1, if_neg h2, if_neg h3, if_neg h4, if_neg h5, if_neg h6,
      if_neg h7, if_neg h8, if_pos h9, hex4]
    simp [parseEscape, hex4Val_hex4 c.toNat h9, hns1, hns2, Char.ofNat_toNat]
  · have hlt : c.toNat < 1114112 := by
      rcases char_toNat_valid c with hv | hv <;> omega
    have hhi : (55296 + (c.toNat - 65536) / 1024) < 65536 := by omega
    have hlo : (56320 + (c.toNat - 65536) % 1024) < 65536 := by omega
    have hhir1 : 55296 ≤ 55296 + (c.toNat - 65536) / 1024 := by omega
    have hhir2 : 55296 + (c.toNat - 65536) / 1024 ≤ 56319 := by
      have hd : (c.toNat - 65536) / 1024 ≤ 1023 := by omega
      omega
    have hlor1 : 56320 ≤ 56320 + (c.toNat - 65536) % 1024 := by omega
    have hlor2 : 56320 + (c.toNat - 65536) % 1024 ≤ 57343 := by
      have hm : (c.toNat - 65536) % 1024 ≤ 1023 := by omega
      omega
    have harith : 65536 + (55296 + (c.toNat - 65536) / 1024 - 55296) * 1024 +
        (56320 + (c.toNat - 65536) % 1024 - 56320) = c.toNat := by omega
    rw [escapeChar, if_neg h1, if_neg h2, if_neg h3, if_neg h4, if_neg h5, if_neg h6,
      if_neg h7, if_neg h8, if_neg h9]
    simp only [List.cons_append, List.nil_append, List.tail_cons, List.append_assoc]
    rw [parseEscape_surrogate _ _ rest hhi hlo ⟨hhir1, hhir2⟩ ⟨hlor1, hlor2⟩]
    have hchar : (65536 + (55296 + (c.toNat - 65536) / 1024 - 55296) * 1024 +
        (56320 + (c.toNat - 65536) % 1024 - 56320)) = c.toNat := by omega
    rw [hchar, Char.ofNat_toNat]

/-- Characters `escapeChar` keeps verbatim are exactly the unescaped
printable ones. -/
theorem escapeChar_plain (c : Char)
    (h : ¬ escapeChar c = '\\' :: (escapeChar c).tail) : escapeChar c = [c] := by
  unfold escapeChar
  unfold escapeChar at h
  by_cases h1 : c = '"'
  · subst h1; exact absurd rfl h
  rw [if_neg h1] at h ⊢
  by_cases h2 : c = '\\'
  · subst h2; exact absurd rfl h
  rw [if_neg h2] at h ⊢
  by_cases h3 : 32 ≤ c.toNat ∧ c.toNat ≤ 126
  · rw [if_pos h3]
  rw [if_neg h3] at h ⊢
  by_cases h4 : c = '\n'
  · rw [if_pos h4] at h; exact absurd rfl h
  rw [if_neg h4] at h ⊢
  by_cases h5 : c = '\t'
  · rw [if_pos h5] at h; exact absurd rfl h
  rw [if_neg h5] at h ⊢
  by_cases h6 : c = '\r'
  · rw [if_pos h6] at h; exact absurd rfl h
  rw [if_neg h6] at h ⊢
  by_cases h7 : c.toNat = 8
  · rw [if_pos h7] at h; exact absurd rfl h
  rw [if_neg h7] at h ⊢
  by_cases h8 : c.toNat = 12
  · rw [if_pos h8] at h; exact absurd rfl h
  rw [if_neg h8] at h ⊢
  by_cases h9 : c.toNat < 65536
  · rw [if_pos h9] at h; exact absurd rfl h
  · rw [if_neg h9] at h; exact absurd rfl h

/-- The string-literal loop inverts the escaping, given enough fuel. -/
theorem parseStrGo_escape : ∀ cs : List Char, ∀ fuel rest, cs.length < fuel →
    parseStrGo fuel (escapeList cs ++ '"' :: rest) = some (cs, rest) := by
  intro cs
  induction cs with
  | nil =>
    intro fuel rest hf
    obtain ⟨f, rfl⟩ : ∃ f, fuel = f + 1 := ⟨fuel - 1, by omega⟩
    simp [escapeList, parseStrGo]
  | cons c cs ih =>
    intro fuel rest hf
    obtain ⟨f, rfl⟩ : ∃ f, fuel = f + 1 := ⟨fuel - 1, by omega⟩
    have hfc : cs.length < f := by
      simp only [List.length_cons] at hf
      omega
    show parseStrGo (f + 1) ((escapeChar c ++ escapeList cs) ++ '"' :: rest) =
      some (c :: cs, rest)
    rw [List.append_assoc]
    by_cases hesc : escapeChar c = '\\' :: (escapeChar c).tail
    · rw [hesc, List.cons_append, parseStrGo]
      rw [if_neg (by decide), if_pos rfl]
      rw [parseEscape_escapeChar c (escapeList cs ++ '"' :: rest) hesc]
      show consFirst c (parseStrGo f (escapeList cs ++ '"' :: rest)) = some (c :: cs, rest)
      rw [ih f rest hfc]
      rfl
    · have hpl := escapeChar_plain c hesc
      have hq : c ≠ '"' := by
        intro hc; subst hc; exact hesc (by decide)
      have hb : c ≠ '\\' := by
        intro hc; subst hc; exact hesc (by decide)
      rw [hpl, List.singleton_append, parseStrGo, if_neg hq, if_neg hb]
      rw [ih f rest hfc]
      rfl

/-- Each character escapes to at least one character. -/
theorem escapeChar_length (c : Char) : 1 ≤ (escapeChar c).length := by
  by_cases hesc : escapeChar c = '\\' :: (escapeChar c).tail
  · rw [hesc]; simp
  · rw [escapeChar_plain c hesc]; simp

/-- Escaping does not shorten a string. -/
theorem escapeList_length : ∀ cs : List Char, cs.length ≤ (escapeList cs).length := by
  intro cs
  induction cs with
  | nil => simp [escapeList]
  | cons c cs ih =>
    simp only [escapeList, List.length_append, List.length_cons]
    have := escapeChar_length c
    omega

/-- Decoding inverts the `ensure_ascii` escaping: parsing the escaped
characters followed by the closing quote yields exactly the original
characters and the input after the quote. -/
theorem parseStringBody_escape (cs rest : List Char) :
    parseStringBody (escapeList cs ++ '"' :: rest) = some (cs, rest) := by
  unfold parseStringBody
  apply parseStrGo_escape
  have h1 := escapeList_length cs
  simp only [List.length_append, List.length_cons]
  omega

/-! ## Steering lemmas for the value parser -/

/-- What may legitimately follow a serialized value: nothing, or an item
separator, or a closing bracket or brace. -/
def RestOk : List Char → Prop
  | [] => True
  | c :: _ => c = ',' ∨ c = ']' ∨ c = rbrace

/-- A legal continuation never starts with a digit, so number parsing stops
at the value boundary. -/
theorem restOk_noDigitHead (rest : List Char) (h : RestOk rest) : noDigitHead rest := by
  cases rest with
  | nil => trivial
  | cons c l =>
    show c.isDigit = false
    rcases h with h | h | h <;> subst h <;> decide

/-- Every JSON value has positive size. -/
theorem sizeJ_pos (j : Json) : 1 ≤ sizeJ j := by
  cases j <;> simp [sizeJ]

/-- A serialized natural number is never empty. -/
theorem natChars_ne_nil (n : Nat) : natChars n ≠ [] := by
  unfold natChars
  by_cases hn : n = 0
  · simp [hn]
  · rw [if_neg hn]
    intro hmap
    exact bigDigits_ne_nil n n (by omega) (le_refl n) (List.map_eq_nil_iff.mp hmap)

/-- A serialized integer is never empty. -/
theorem intChars_ne_nil (i : Int) : intChars i ≠ [] := by
  cases i with
  | ofNat m => exact natChars_ne_nil m
  | negSucc m => simp [intChars]

/-- Every serialized value starts with a character that is not a closing
bracket, so the element loop never mistakes a value for the end of an
array. -/
theorem dumpsV_head (j : Json) : ∃ c t, dumpsV j = c :: t ∧ c ≠ ']' := by
  cases j with
  | null => exact ⟨'n', _, rfl, by decide⟩
  | bool b =>
    cases b with
    | false => exact ⟨'f', _, rfl, by decide⟩
    | true => exact ⟨'t', _, rfl, by decide⟩
  | num n =>
    cases n with
    | ofNat m =>
      by_cases hm : m = 0
      · subst hm
        exact ⟨'0', [], rfl, by decide⟩
      · obtain ⟨d, es, hds⟩ :=
          List.exists_cons_of_ne_nil (bigDigits_ne_nil m m (by omega) (le_refl m))
        have hd10 : d < 10 := bigDigits_lt m m d (hds ▸ List.mem_cons_self d es)
        obtain ⟨-, -, -, -, -, -, -, -, -, hne⟩ := digitChar_facts d hd10
        refine ⟨digitChar d, es.map digitChar, ?_, hne⟩
        show intChars (Int.ofNat m) = _
        simp [intChars, natChars, hm, hds]
    | negSucc m => exact ⟨'-', _, rfl, by decide⟩
  | str s => exact ⟨'"', _, rfl, by decide⟩
  | arr xs => exact ⟨'[', _, rfl, by decide⟩
  | obj kvs => exact ⟨lbrace, _, rfl, by decide⟩

/-- A serialized natural number starts with a digit character that is none
of the characters the value parser dispatches on first. -/
theorem natChars_head (m : Nat) : ∃ dc tl, natChars m = dc :: tl ∧
    dc.isDigit = true ∧ dc ≠ 'n' ∧ dc ≠ 't' ∧ dc ≠ 'f' ∧ dc ≠ '"' ∧ dc ≠ '[' ∧
    dc ≠ lbrace ∧ dc ≠ '-' := by
  by_cases hm : m = 0
  · subst hm
    exact ⟨'0', [], rfl, by decide⟩
  · obtain ⟨d, es, hds⟩ :=
      List.exists_cons_of_ne_nil (bigDigits_ne_nil m m (by omega) (le_refl m))
    have hd10 : d < 10 := bigDigits_lt m m d (hds ▸ List.mem_cons_self d es)
    obtain ⟨h1, -, h3, h4, h5, h6, h7, h8, h9, -⟩ := digitChar_facts d hd10
    refine ⟨digitChar d, es.map digitChar, ?_, h1, h3, h4, h5, h6, h7, h8, h9⟩
    simp [natChars, hm, hds]

/-- The value, element and member parsers invert the serializer, given fuel
at least the structural size of the value. -/
theorem parse_dumps_all : ∀ fuel : Nat,
    (∀ j, sizeJ j ≤ fuel → ∀ rest, RestOk rest →
      parseV fuel (dumpsV j ++ rest) = some (j, rest)) ∧
    (∀ xs, sizeL xs + 1 ≤ fuel → ∀ rest,
      parseElems fuel (dumpsArr xs ++ ']' :: rest) = some (xs, rest)) ∧
    (∀ kvs, sizeM kvs + 1 ≤ fuel → ∀ rest,
      parseMembers fuel (dumpsObj kvs ++ rbrace :: rest) = some (kvs, rest)) := by
  intro fuel
  induction fuel with
  | zero =>
    refine ⟨?_, ?_, ?_⟩
    · intro j hsz _ _
      exact absurd hsz (by have := sizeJ_pos j; omega)
    · intro xs hsz _
      exact absurd hsz (by omega)
    · intro kvs hsz _
      exact absurd hsz (by omega)
  | succ n ih =>
    obtain ⟨ihV, ihE, ihM⟩ := ih
    refine ⟨?_, ?_, ?_⟩
    · intro j hsz rest hrest
      cases j with
      | null => rfl
      | bool b => cases b <;> rfl
      | num i =>
        cases i with
        | ofNat m =>
          obtain ⟨dc, tl, hnat, hdig, hn1, hn2, hn3, hn4, hn5, hn6, hn7⟩ := natChars_head m
          have hinput : dumpsV (Json.num (Int.ofNat m)) ++ rest = dc :: (tl ++ rest) := by
            show intChars (Int.ofNat m) ++ rest = _
            simp [intChars, hnat]
          rw [hinput]
          simp only [parseV]
          rw [if_neg hn1, if_neg hn2, if_neg hn3, if_neg hn4, if_neg hn5, if_neg hn6,
            if_neg hn7, if_pos hdig]
          have hback : dc :: (tl ++ rest) = natChars m ++ rest := by simp [hnat]
          rw [hback, parseNat_natChars m rest (restOk_noDigitHead rest hrest)]
          rfl
        | negSucc m =>
          have hinput : dumpsV (Json.num (Int.negSucc m)) ++ rest =
              '-' :: (natChars (m + 1) ++ rest) := rfl
          rw [hinput]
          simp only [parseV]
          rw [if_neg (by decide : ¬('-' : Char) = 'n'),
            if_neg (by decide : ¬('-' : Char) = 't'),
            if_neg (by decide : ¬('-' : Char) = 'f'),
            if_neg (by decide : ¬('-' : Char) = '"'),
            if_neg (by decide : ¬('-' : Char) = '['),
            if_neg (by decide : ¬('-' : Char) = lbrace)]
          rw [if_pos (trivial : True)]
          rw [parseNat_natChars (m + 1) rest (restOk_noDigitHead rest hrest)]
          simp [Option.map_some', Int.negSucc_eq]
      | str s =>
        have hinput : dumpsV (Json.str s) ++ rest =
            '"' :: (escapeList s.data ++ '"' :: rest) := by
          show ('"' :: (escapeList s.data ++ ['"'])) ++ rest = _
          simp
        rw [hinput]
        simp only [parseV]
        rw [if_neg (by decide : ¬('"' : Char) = 'n'),
          if_neg (by decide : ¬('"' : Char) = 't'),
          if_neg (by decide : ¬('"' : Char) = 'f')]
        rw [if_pos (trivial : True)]
        rw [parseStringBody_escape s.data rest]
        rfl
      | arr xs =>
        have hinput : dumpsV (Json.arr xs) ++ rest =
            '[' :: (dumpsArr xs ++ ']' :: rest) := by
          show ('[' :: (dumpsArr xs ++ [']'])) ++ rest = _
          simp
        rw [hinput]
        simp only [parseV]
        rw [if_neg (by decide : ¬('[' : Char) = 'n'),
          if_neg (by decide : ¬('[' : Char) = 't'),
          if_neg (by decide : ¬('[' : Char) = 'f'),
          if_neg (by decide : ¬('[' : Char) = '"')]
        rw [if_pos (trivial : True)]
        rw [ihE xs (by simp [sizeJ] at hsz; omega) rest]
        rfl
      | obj kvs =>
        have hinput : dumpsV (Json.obj kvs) ++ rest =
            lbrace :: (dumpsObj kvs ++ rbrace :: rest) := by
          show (lbrace :: (dumpsObj kvs ++ [rbrace])) ++ rest = _
          simp
        rw [hinput]
        simp only [parseV]
        rw [if_neg (by decide : ¬lbrace = 'n'), if_neg (by decide : ¬lbrace = 't'),
          if_neg (by decide : ¬lbrace = 'f'), if_neg (by decide : ¬lbrace = '"'),
          if_neg (by decide : ¬lbrace = '[')]
        rw [if_pos (trivial : True)]
        rw [ihM kvs (by simp [sizeJ] at hsz; omega) rest]
        rfl
    · intro xs hsz rest
      cases xs with
      | nil => rfl
      | cons x xs' =>
        obtain ⟨c, t, hct, hne⟩ := dumpsV_head x
        cases xs' with
        | nil =>
          have hin : dumpsArr [x] ++ ']' :: rest = c :: (t ++ ']' :: rest) := by
            simp [dumpsArr, hct]
          rw [hin]
          simp only [parseElems]
          rw [if_neg hne]
          have hx : parseV n (c :: (t ++ ']' :: rest)) = some (x, ']' :: rest) := by
            rw [← List.cons_append, ← hct]
            exact ihV x (by simp [sizeL] at hsz; omega) (']' :: rest) (Or.inr (Or.inl rfl))
          rw [hx]
          rfl
        | cons y ys =>
          have hin : dumpsArr (x :: y :: ys) ++ ']' :: rest =
              c :: (t ++ ',' :: ' ' :: (dumpsArr (y :: ys) ++ ']' :: rest)) := by
            simp [dumpsArr, hct]
          rw [hin]
          simp only [parseElems]
          rw [if_neg hne]
          have hszx : sizeJ x ≤ n := by simp [sizeL] at hsz; omega
          have hx : parseV n (c :: (t ++ ',' :: ' ' :: (dumpsArr (y :: ys) ++ ']' :: rest))) =
              some (x, ',' :: ' ' :: (dumpsArr (y :: ys) ++ ']' :: rest)) := by
            rw [← List.cons_append, ← hct]
            exact ihV x hszx _ (Or.inl rfl)
          rw [hx]
          show (parseElems n (dumpsArr (y :: ys) ++ ']' :: rest)).map
              (fun p => (x :: p.1, p.2)) = some (x :: y :: ys, rest)
          rw [ihE (y :: ys) (by simp [sizeL] at hsz ⊢; have := sizeJ_pos x; omega) rest]
          rfl
    · intro kvs hsz rest
      cases kvs with
      | nil => rfl
      | cons kv kvs' =>
        obtain ⟨k, v⟩ := kv
        cases kvs' with
        | nil =>
          have hin : dumpsObj [(k, v)] ++ rbrace :: rest =
              '"' :: (escapeList k.data ++ '"' :: (':' :: ' ' :: (dumpsV v ++ rbrace :: rest))) := by
            simp [dumpsObj]
          rw [hin]
          simp only [parseMembers]
          rw [if_neg (by decide : ¬('"' : Char) = rbrace)]
          rw [if_pos (trivial : True)]
          rw [parseStringBody_escape k.data (':' :: ' ' :: (dumpsV v ++ rbrace :: rest))]
          simp only []
          have hv : parseV n (dumpsV v ++ rbrace :: rest) = some (v, rbrace :: rest) :=
            ihV v (by simp [sizeM] at hsz; omega) _ (Or.inr (Or.inr rfl))
          rw [hv]
          rfl
        | cons m kvs'' =>
          have hin : dumpsObj ((k, v) :: m :: kvs'') ++ rbrace :: rest =
              '"' :: (escapeList k.data ++ '"' :: (':' :: ' ' ::
                (dumpsV v ++ ',' :: ' ' :: (dumpsObj (m :: kvs'') ++ rbrace :: rest)))) := by
            simp [dumpsObj]
          rw [hin]
          simp only [parseMembers]
          rw [if_neg (by decide : ¬('"' : Char) = rbrace)]
          rw [if_pos (trivial : True)]
          rw [parseStringBody_escape k.data
            (':' :: ' ' :: (dumpsV v ++ ',' :: ' ' :: (dumpsObj (m :: kvs'') ++ rbrace :: rest)))]
          simp only []
          have hv : parseV n (dumpsV v ++ ',' :: ' ' :: (dumpsObj (m :: kvs'') ++ rbrace :: rest)) =
              some (v, ',' :: ' ' :: (dumpsObj (m :: kvs'') ++ rbrace :: rest)) :=
            ihV v (by simp [sizeM] at hsz; omega) _ (Or.inl rfl)
          rw [hv]
          show (parseMembers n (dumpsObj (m :: kvs'') ++ rbrace :: rest)).map
              (fun p => ((k, v) :: p.1, p.2)) = some ((k, v) :: m :: kvs'', rest)
          rw [ihM (m :: kvs'') (by simp [sizeM] at hsz ⊢; have := sizeJ_pos v; omega) rest]
          rfl

mutual

/-- The fuel notion of size is bounded by the serialized length. -/
theorem sizeJ_le_dumps : (j : Json) → sizeJ j ≤ 2 * (dumpsV j).length
  | .null => by decide
  | .bool b => by cases b <;> decide
  | .num i => by
    have h : 0 < (intChars i).length := List.length_pos.mpr (intChars_ne_nil i)
    simp only [sizeJ, dumpsV]
    omega
  | .str s => by
    simp only [sizeJ, dumpsV, List.length_cons, List.length_append]
    omega
  | .arr xs => by
    have h := sizeL_le_dumps xs
    simp only [sizeJ, dumpsV, List.length_cons, List.length_append]
    omega
  | .obj kvs => by
    have h := sizeM_le_dumps kvs
    simp only [sizeJ, dumpsV, List.length_cons, List.length_append]
    omega

/-- Size bound for serialized array elements. -/
theorem sizeL_le_dumps : (xs : List Json) → sizeL xs ≤ 2 * (dumpsArr xs).length + 1
  | [] => by simp [sizeL]
  | [x] => by
    have h := sizeJ_le_dumps x
    simp only [sizeL, dumpsArr]
    omega
  | x :: y :: ys => by
    have h1 := sizeJ_le_dumps x
    have h2 := sizeL_le_dumps (y :: ys)
    simp only [sizeL, dumpsArr, List.length_append, List.length_cons] at h2 ⊢
    omega

/-- Size bound for serialized object members. -/
theorem sizeM_le_dumps : (kvs : List (String × Json)) →
    sizeM kvs ≤ 2 * (dumpsObj kvs).length + 1
  | [] => by simp [sizeM]
  | [(k, v)] => by
    have h := sizeJ_le_dumps v
    simp only [sizeM, dumpsObj, List.length_append, List.length_cons]
    omega
  | (k, v) :: m :: kvs => by
    have h1 := sizeJ_le_dumps v
    have h2 := sizeM_le_dumps (m :: kvs)
    simp only [sizeM, dumpsObj, List.length_append, List.length_cons] at h2 ⊢
    omega

end

/-- Model of the round trip: `json.loads` inverts `json.dumps`: deserializing a serialized payload
yields the payload back. -/
theorem json_loads_dumps (j : Json) : json_loads (json_dumps j) = some j := by
  have hsz : sizeJ j ≤ jsonFuel (dumpsV j) := by
    have h := sizeJ_le_dumps j
    unfold jsonFuel
    omega
  have hP := (parse_dumps_all (jsonFuel (dumpsV j))).1 j hsz [] trivial
  rw [List.append_nil] at hP
  show (match parseV (jsonFuel (dumpsV j)) (dumpsV j) with
    | some (v, []) => some v
    | _ => none) = some j
  rw [hP]

/-! ## Claim C7 -/

/-- Appending a body to a queue makes it the next entry of that queue's
message list. -/
theorem lookup_enqueue : ∀ ms : List (String × List String), ∀ url b,
    (enqueue ms url b).lookup url = some ((ms.lookup url).getD [] ++ [b]) := by
  intro ms
  induction ms with
  | nil =>
    intro url b
    simp [enqueue, List.lookup]
  | cons p rest ih =>
    intro url b
    obtain ⟨u, bs⟩ := p
    by_cases hu : u = url
    · subst hu
      simp [enqueue, List.lookup]
    · rw [enqueue, if_neg hu]
      have hne : (url == u) = false := by
        simp [BEq.beq]
        intro hc
        exact hu hc.symm
      simp [List.lookup, hne, ih]

/-- C7.  Sending a JSON-serializable payload to a queue and then receiving
from it — the queue initially empty and no concurrent consumer — delivers a
message whose body is the serialized payload and deserializes back to the
payload. -/
theorem send_then_receive_round_trips
    (st : SqsState) (queue_name url : String) (param : Json)
    (hq : st.queues.lookup queue_name = some url)
    (hempty : (st.messages.lookup url).getD [] = []) :
    ∃ st2 sendOut,
      send_sqs_message st param queue_name false = .ok (st2, sendOut) ∧
      retrieve_sqs_messages st2 queue_name false =
        .ok ⟨[⟨url, 1, 20, 600⟩], some ⟨[json_dumps param]⟩,
          [⟨false, "Message successfully read from SQS"⟩]⟩ ∧
      json_loads (json_dumps param) = some param := by
  refine ⟨{ st with messages := enqueue st.messages url (json_dumps param) },
    ⟨some "message-id", [⟨false, "Message successfully sent to SQS"⟩]⟩,
    ?_, ?_, json_loads_dumps param⟩
  · simp [send_sqs_message, get_queue_url, hq]
  · have hlook := lookup_enqueue st.messages url (json_dumps param)
    rw [hempty] at hlook
    simp [retrieve_sqs_messages, get_queue_url, hq, hlook]

/-- C7, witnessed with the payload from the spec's example, an object
holding one string field. -/
theorem send_then_receive_round_trips_witness :
    ∃ st2 sendOut,
      send_sqs_message ⟨[("jobs", "u1")], []⟩ (Json.obj [("k", Json.str "v")])
        "jobs" false = .ok (st2, sendOut) ∧
      retrieve_sqs_messages st2 "jobs" false =
        .ok ⟨[⟨"u1", 1, 20, 600⟩],
          some ⟨[json_dumps (Json.obj [("k", Json.str "v")])]⟩,
          [⟨false, "Message successfully read from SQS"⟩]⟩ ∧
      json_loads (json_dumps (Json.obj [("k", Json.str "v")])) =
        some (Json.obj [("k", Json.str "v")]) :=
  send_then_receive_round_trips ⟨[("jobs", "u1")], []⟩ "jobs" "u1"
    (Json.obj [("k", Json.str "v")]) rfl rfl
